import Mathlib

/-!
Verification of the HuntingTourneyBot core (src/HuntingTourneyBot.py):
the stage catalog and resolver, the randomized stage-ordering generator,
the two artifact serializers, and the ban-submission state machine.

Randomness is made explicit: every call of Python's `random.shuffle` is
modelled by passing the shuffled list as an argument (theorems hypothesise
that it is a permutation of the list the source shuffles in place), and
every call of `random.randint(lo, hi)` is modelled by `randint lo hi r`
where `r : Nat` is the underlying random draw; `randint` returns `none`
exactly when Python's `randint` raises `ValueError` (empty range `hi < lo`).
-/

/-- The `STAGES` dictionary (source lines 46-56): canonical stage names with
their shorthand aliases, in declaration order. -/
def STAGES : List (String × List String) :=
  [("Wild Canyon", ["WC", "wild", "canyon"]),
   ("Pumpkin Hill", ["PH", "pumpkin", "hill"]),
   ("Death Chamber", ["DC", "death", "chamber"]),
   ("Aquatic Mine", ["AM", "aquatic", "mine"]),
   ("Meteor Herd", ["MH", "meteor", "herd"]),
   ("Dry Lagoon", ["DL", "dry", "lagoon"]),
   ("Egg Quarters", ["EQ", "egg", "quarters"]),
   ("Security Hall", ["SH", "security", "hall"]),
   ("Mad Space", ["MS", "mad", "space"])]

/-- `STAGE_NAMES = list(STAGES.keys())` (source line 59). -/
def STAGE_NAMES : List String := STAGES.map Prod.fst

/-- Python `str.lower()`, modelled character-wise (all catalog text is
ASCII, where `lower()` is exactly the per-character lowercase map). -/
def strLower (s : String) : String := String.mk (s.data.map Char.toLower)

/-- `stage_abbrs[stage] = STAGES[stage][0].lower()` (source lines 117-120). -/
def abbrOf (s : String) : String :=
  strLower (((STAGES.lookup s).getD []).headD "")

/-- The reverse mapping `abbr_to_stage` (source lines 123-125). -/
def abbr_to_stage (a : String) : String :=
  ((STAGES.map (fun p => (abbrOf p.1, p.1))).lookup a).getD ""

/-- `MAX_SEED = 2**31 - 1` (source line 40). -/
def MAX_SEED : Nat := 2 ^ 31 - 1

/-- Model of Python `random.randint(lo, hi)`: given the underlying random
draw `r`, returns a value in `[lo, hi]`; `none` models the `ValueError`
raised when the range is empty (`hi < lo`). -/
def randint (lo hi : Nat) (r : Nat) : Option Nat :=
  if hi < lo then none else some (lo + r % (hi - lo + 1))

/-- Python dict assignment `d[k] = v` on an insertion-ordered dictionary:
an existing key keeps its position and gets the new value, a fresh key is
appended at the end. -/
def dictInsert {α : Type} (d : List (String × α)) (k : String) (v : α) :
    List (String × α) :=
  if (d.lookup k).isSome then
    d.map (fun p => if p.1 = k then (k, v) else p)
  else
    d ++ [(k, v)]

/-- Python tuple-swap `l[i], l[j] = l[j], l[i]`. -/
def listSwap {α : Type} (l : List α) (i j : Nat) : List α :=
  match l[i]?, l[j]? with
  | some a, some b => (l.set i b).set j a
  | _, _ => l

/-- `remaining_stages = [stage for stage in STAGE_NAMES if stage not in
self.banned_stages]` (source lines 136-138). -/
def remainingStages (banned : List String) : List String :=
  STAGE_NAMES.filter (fun s => !(banned.contains s))

/-- Source lines 140-146: after `shuffle(remaining_stages)` (the shuffled
list is the argument here), if `"Security Hall"` ended up first, swap it
with position `randint(1, len-1)`; `none` models the `ValueError` of an
empty `randint` range. -/
def appliedSeq (shuffled : List String) (r : Nat) : Option (List String) :=
  match shuffled with
  | [] => some []
  | h :: _ =>
    if h = "Security Hall" then
      match randint 1 (shuffled.length - 1) r with
      | none => none
      | some j => some (listSwap shuffled 0 j)
    else some shuffled

/-- The dictionary-building part of `DraftManager.generate_ordered_stages`
(source lines 128-167), applied to the bias-corrected sequence `seq`:
builds the insertion-ordered `order_dict` (banned stages at 0 first, then
the stages of `seq` at 1..N, then a fill loop for missing keys) and
returns the `(stage_name, order_value, abbr)` triples in dict order.
Rank values are kept as `Nat` (the source stores `str(i)` and converts back
with `int`, a lossless round trip). -/
def orderedStagesFor (banned seq : List String) : List (String × Nat × String) :=
  let d0 : List (String × Nat) :=
    banned.foldl (fun d s =>
      if STAGE_NAMES.contains s then dictInsert d (abbrOf s) 0 else d) []
  let d1 := seq.enum.foldl (fun d p =>
    if STAGE_NAMES.contains p.2 then dictInsert d (abbrOf p.2) (p.1 + 1) else d) d0
  let d2 := STAGE_NAMES.foldl (fun d s =>
    if ((d.lookup (abbrOf s)).isSome : Bool) then d else d ++ [(abbrOf s, 0)]) d1
  d2.map (fun p => (abbr_to_stage p.1, p.2, p.1))

/-- `DraftManager.generate_ordered_stages` (source lines 112-167), with the
shuffle outcome `shuffled` and the swap draw `r` passed explicitly: the
Security Hall bias correction (`appliedSeq`) followed by the rank
dictionary (`orderedStagesFor`); `none` models the `ValueError` of an
empty `randint` range in the swap. -/
def generateOrderedStages (banned shuffled : List String) (r : Nat) :
    Option (List (String × Nat × String)) :=
  match appliedSeq shuffled r with
  | none => none
  | some seq => some (orderedStagesFor banned seq)

/-- Closed form of `orderedStagesFor` under the real-draft preconditions:
the banned stages (in ban order) at rank 0, followed by the bias-corrected
shuffled sequence at ranks `1..N`. -/
def orderedForm (banned seq : List String) : List (String × Nat × String) :=
  banned.map (fun b => (b, 0, abbrOf b)) ++
    seq.enum.map (fun p => (p.2, p.1 + 1, abbrOf p.2))

/-- Source lines 253-258 (in `generate_split_file`): keep the triples with
order value `> 0` as `(stage, order)` pairs and stably sort them by order
(Python `list.sort` is stable; `List.mergeSort` is the stable sort here). -/
def activeStages (os : List (String × Nat × String)) : List (String × Nat) :=
  ((os.filter (fun t => decide (0 < t.2.1))).map (fun t => (t.1, t.2.1))).mergeSort
    (fun a b => decide (a.2 ≤ b.2))

/-- `stage_order = [stage for stage, _ in active_stages]` (source line 258). -/
def stageOrderOf (os : List (String × Nat × String)) : List String :=
  (activeStages os).map Prod.fst

/-- Body of the per-stage loop of `DraftManager._create_livesplit_segments`
(source lines 175-191): given the accumulated `(split_list, segment_names,
split_num)`, appends the five splits of one stage; `split_list` collects the
plain `"<stage> <i>"` names and `segment_names` the XML segment display
names `"<stage> <i> (<split_num>/<total_splits>)"`. -/
def segStep (total_splits : Nat) (acc : List String × List String × Nat)
    (stage : String) : List String × List String × Nat :=
  (List.range' 1 5).foldl (fun a i =>
    let split_name := stage ++ " " ++ toString i
    let full := split_name ++ " (" ++ toString a.2.2 ++ "/" ++
      toString total_splits ++ ")"
    (a.1 ++ [split_name], a.2.1 ++ [full], a.2.2 + 1)) acc

/-- `DraftManager._create_livesplit_segments` (source lines 169-191), kept to
its observable text output `(split_list, segment_names)`, with `split_num`
running across the whole sequence starting at 1. -/
def createSegments (stage_order : List String) (total_splits : Nat) :
    List String × List String :=
  let res := stage_order.foldl (segStep total_splits) ([], [], 1)
  (res.1, res.2.1)

/-- Specification-shaped running-label list used to state the closed form of
`createSegments`: five labels per stage, the split counter starting at `n`. -/
def expectedSegs (total : Nat) : List String → Nat → List String
  | [], _ => []
  | s :: rest, n =>
    (List.range' 1 5).map (fun i => s ++ " " ++ toString i ++ " (" ++
      toString (n + i - 1) ++ "/" ++ toString total ++ ")") ++
      expectedSegs total rest (n + 5)

/-- The segment display names produced by `generate_split_file` for a given
`ordered_stages` value (source lines 252-261): `total_splits` is five times
the number of active stages. -/
def splitFileSegments (os : List (String × Nat × String)) : List String :=
  (createSegments (stageOrderOf os) ((stageOrderOf os).length * 5)).2

/-- The three sections of the emitted `config.ini`, in the order the source
writes them (source lines 297-326). Keys and values are strings exactly as
written on the `key=value` lines. -/
structure ConfigFile where
  set : List (String × String)
  order : List (String × String)
  number : List (String × String)
deriving DecidableEq

/-- `DraftManager.generate_config_file` (source lines 297-326), with the
randomness of its internal `generate_ordered_stages()` call (`shuffled`,
`rSwap`) and of the seed draw `randint(1, MAX_SEED)` (`rSeed`) explicit.
The order section is a dict comprehension over `ordered_stages` followed by
a fill loop; the number section maps every catalog abbr to `"5"`. -/
def generateConfigFile (banned shuffled : List String) (rSwap rSeed : Nat) :
    Option ConfigFile :=
  match generateOrderedStages banned shuffled rSwap with
  | none => none
  | some os =>
    match randint 1 MAX_SEED rSeed with
    | none => none
    | some seed =>
      let setSection := [("seed", toString seed), ("ups", "True")]
      let order0 : List (String × String) :=
        os.foldl (fun d t => dictInsert d t.2.2 (toString t.2.1)) []
      let order1 := STAGE_NAMES.foldl (fun d s =>
        if ((d.lookup (abbrOf s)).isSome : Bool) then d
        else d ++ [(abbrOf s, "0")]) order0
      let numberSection : List (String × String) :=
        STAGE_NAMES.foldl (fun d s => dictInsert d (abbrOf s) "5") []
      some { set := setSection, order := order1, number := numberSection }

/-- `DraftManager.resolve_stage_name` (source lines 328-343): lowercase the
input, first scan for an exact (case-insensitive) canonical-name match,
then scan for a membership match among the lowercased aliases. -/
def resolveStageName (stage_input : String) : Option String :=
  let si := strLower stage_input
  match STAGES.find? (fun p => si == strLower p.1) with
  | some p => some p.1
  | none =>
    match STAGES.find? (fun p => (p.2.map (fun a => strLower a)).contains si) with
    | some p => some p.1
    | none => none

/-- Written from the specification text (§4.1), for comparison with
`resolveStageName`: "(1) exact case-insensitive match against a canonical
name; (2) case-insensitive match against any registered alias. No
fuzzy/partial matching beyond these two passes." -/
def resolveSpec (input : String) : Option String :=
  match STAGE_NAMES.find? (fun n => strLower n == strLower input) with
  | some n => some n
  | none =>
    STAGE_NAMES.find? (fun n =>
      ((STAGES.lookup n).getD []).any (fun a => strLower a == strLower input))

/-- Labels for the observable outcomes of the ban-submission branches,
following the specification's error taxonomy (§7); the source signals these
outcomes by printing and continuing rather than by returning values. -/
inductive BanOutcome
  | banRecorded
  | unresolvedStage
  | alreadyBanned
  | notAwaitingBan
  | internalError
deriving DecidableEq

/-- The mutable `DraftManager` session fields touched by the ban-submission
flow (source lines 65-79; the generated-artifact caches `ordered_stages`
and `split_list` belong to the generator component and are not part of the
session state modelled here). -/
structure DraftState where
  runner1 : Option String
  runner2 : Option String
  first_banner : Option String
  second_banner : Option String
  banned_stages : List String
  current_turn : Option String
  draft_active : Bool
  waiting_for_ban1 : Bool
  waiting_for_ban2 : Bool
  output_lines : List String
deriving DecidableEq

/-- The two attribute names passed as `waiting_attr` / `next_waiting_attr`
strings to `_process_ban` (source lines 519-520). -/
inductive WaitAttr
  | ban1
  | ban2
deriving DecidableEq

/-- `getattr(self.draft_manager, waiting_attr)` (source line 524). -/
def getWait (st : DraftState) : WaitAttr → Bool
  | .ban1 => st.waiting_for_ban1
  | .ban2 => st.waiting_for_ban2

/-- `setattr(self.draft_manager, attr, v)` (source lines 558-560). -/
def setWait (st : DraftState) : WaitAttr → Bool → DraftState
  | .ban1, v => { st with waiting_for_ban1 := v }
  | .ban2, v => { st with waiting_for_ban2 := v }

/-- `MyClient._process_ban` (source lines 513-620), kept to its session-state
mutations: the early return when the draft is inactive or the corresponding
waiting flag is off, the `banner is None` guard, recording the ban, status
lines, and either the turn switch or the conclusion (which also drops
`waiting_for_ban2` and `draft_active`). Message sends, sleeps and the
artifact generation of the conclusion branch touch no session field modelled
here. -/
def processBan (st : DraftState) (full_stage_name : String)
    (banner next_banner : Option String) (line_index : Nat)
    (waiting_attr : WaitAttr) (next_waiting_attr : Option WaitAttr)
    (is_final_ban : Bool) : DraftState × BanOutcome :=
  if ¬ st.draft_active ∨ ¬ getWait st waiting_attr then (st, .notAwaitingBan)
  else
    match banner with
    | none => (st, .internalError)
    | some b =>
      let st1 := { st with banned_stages := st.banned_stages ++ [full_stage_name] }
      let st2 := { st1 with
        output_lines := st1.output_lines.set line_index full_stage_name }
      let st3 := { st2 with
        output_lines := st2.output_lines.set 0 (b ++ " banned " ++ full_stage_name) }
      match is_final_ban, next_banner with
      | false, some nb =>
        let st4 := { st3 with current_turn := some nb }
        let st5 := { st4 with
          output_lines := st4.output_lines.set 0 (nb ++ "\x27s turn to ban") }
        let st6 := setWait st5 waiting_attr false
        let st7 := match next_waiting_attr with
          | some a => setWait st6 a true
          | none => st6
        (st7, .banRecorded)
      | _, _ =>
        let st4 := { st3 with output_lines := st3.output_lines.set 0 "Draft concluded" }
        let st5 := { st4 with waiting_for_ban2 := false }
        let st6 := { st5 with draft_active := false }
        (st6, .banRecorded)

/-- `MyClient.process_ban1` (source lines 622-635). -/
def processBan1 (st : DraftState) (full_stage_name : String) :
    DraftState × BanOutcome :=
  processBan st full_stage_name st.first_banner st.second_banner
    (if st.first_banner = st.runner1 then 1 else 2) .ban1 (some .ban2) false

/-- `MyClient.process_ban2` (source lines 637-650). -/
def processBan2 (st : DraftState) (full_stage_name : String) :
    DraftState × BanOutcome :=
  processBan st full_stage_name st.second_banner none
    (if st.second_banner = st.runner1 then 1 else 2) .ban2 none true

/-- One submission through `DraftManager.console_input_loop` (source lines
355-415): the loop runs only while `draft_active`, prompts only when a
waiting flag is set, resolves the input, rejects unknown and already-banned
stages, and dispatches on `waiting_for_ban1`. -/
def consoleSubmit (st : DraftState) (input : String) : DraftState × BanOutcome :=
  if st.draft_active then
    if st.waiting_for_ban1 ∨ st.waiting_for_ban2 then
      match resolveStageName input with
      | none => (st, .unresolvedStage)
      | some stage =>
        if st.banned_stages.contains stage then (st, .alreadyBanned)
        else if st.waiting_for_ban1 then processBan1 st stage
        else processBan2 st stage
    else (st, .notAwaitingBan)
  else (st, .notAwaitingBan)

/-- The session state right after `MyClient._handle_start_command` (source
lines 443-511): reset, runners recorded, coin flip (`coin = false` puts
`runner1` first, mirroring `coin_flip == 0`), first turn announced,
`waiting_for_ban1` set. -/
def startState (r1 r2 : String) (coin : Bool) : DraftState :=
  { runner1 := some r1, runner2 := some r2,
    first_banner := some (if coin then r2 else r1),
    second_banner := some (if coin then r1 else r2),
    banned_stages := [],
    current_turn := some (if coin then r2 else r1),
    draft_active := true, waiting_for_ban1 := true, waiting_for_ban2 := false,
    output_lines := [(if coin then r2 else r1) ++ "\x27s turn to ban", "", ""] }

/-- `DraftManager.reset` (source lines 81-95): the `Idle` session state. -/
def resetState : DraftState :=
  { runner1 := none, runner2 := none, first_banner := none,
    second_banner := none, banned_stages := [], current_turn := none,
    draft_active := false, waiting_for_ban1 := false, waiting_for_ban2 := false,
    output_lines := ["", "", ""] }

/-- Spec §3 `phase = Idle` (draft not active, no bans recorded). -/
def isIdle (st : DraftState) : Prop :=
  st.draft_active = false ∧ st.banned_stages = []

/-- Spec §3 `phase = Concluded` (draft not active, both bans recorded). -/
def isConcluded (st : DraftState) : Prop :=
  st.draft_active = false ∧ st.banned_stages.length = 2

/-- States reachable through the session's ban-submission flow: a fresh
draft start, a reset, or any sequence of console ban submissions. -/
inductive ReachableDraft : DraftState → Prop
  | start (r1 r2 : String) (coin : Bool) : ReachableDraft (startState r1 r2 coin)
  | reset {st : DraftState} : ReachableDraft st → ReachableDraft resetState
  | ban {st : DraftState} (input : String) :
      ReachableDraft st → ReachableDraft (consoleSubmit st input).1

/-- The inductive invariant of the ban-submission flow. -/
def DraftInv (st : DraftState) : Prop :=
  st.banned_stages.Nodup ∧ st.banned_stages.length ≤ 2 ∧
    (st.draft_active = true →
      (st.waiting_for_ban1 = true → st.banned_stages.length = 0) ∧
      (st.waiting_for_ban2 = true → st.banned_stages.length ≤ 1))

/-! ### Basic catalog facts -/

theorem stage_names_nodup : STAGE_NAMES.Nodup := by decide

theorem stage_names_length : STAGE_NAMES.length = 9 := by decide

theorem abbrOf_injOn :
    ∀ s ∈ STAGE_NAMES, ∀ t ∈ STAGE_NAMES, abbrOf s = abbrOf t → s = t := by decide

theorem abbr_to_stage_abbrOf : ∀ s ∈ STAGE_NAMES, abbr_to_stage (abbrOf s) = s := by
  decide

/-! ### Lookup and dict-insert lemmas -/

theorem lookup_none_iff {α : Type} (d : List (String × α)) (k : String) :
    d.lookup k = none ↔ ∀ p ∈ d, p.1 ≠ k := by
  rw [List.lookup_eq_none_iff]
  constructor
  · intro h p hp hk
    have := h p hp
    simp [hk] at this
  · intro h p hp
    have := h p hp
    simp [bne_iff_ne]
    exact fun hk => (h p hp) hk.symm

theorem lookup_isSome_iff {α : Type} (d : List (String × α)) (k : String) :
    (d.lookup k).isSome = true ↔ ∃ p ∈ d, p.1 = k := by
  rw [Option.isSome_iff_ne_none]
  constructor
  · intro h
    by_contra hc
    push_neg at hc
    exact h ((lookup_none_iff d k).mpr (fun p hp => fun hEq => hc p hp hEq))
  · intro ⟨p, hp, hk⟩ h
    exact ((lookup_none_iff d k).mp h) p hp hk

theorem dictInsert_fresh {α : Type} (d : List (String × α)) (k : String) (v : α)
    (h : d.lookup k = none) : dictInsert d k v = d ++ [(k, v)] := by
  simp [dictInsert, h]

theorem foldl_dictInsert_eq_append {α : Type} (ps : List (String × α)) :
    ∀ d : List (String × α), (ps.map Prod.fst).Nodup →
      (∀ p ∈ ps, d.lookup p.1 = none) →
      ps.foldl (fun d p => dictInsert d p.1 p.2) d = d ++ ps := by
  induction ps with
  | nil => intro d _ _; simp
  | cons p rest ih =>
    intro d hnd hfresh
    have hp : d.lookup p.1 = none := hfresh p (by simp)
    rw [List.map_cons, List.nodup_cons] at hnd
    obtain ⟨hpnot, hnd'⟩ := hnd
    have hne : ∀ q ∈ rest, q.1 ≠ p.1 := fun q hq hEq =>
      hpnot (hEq ▸ List.mem_map_of_mem Prod.fst hq)
    simp only [List.foldl_cons, dictInsert_fresh d p.1 p.2 hp]
    have hfresh' : ∀ q ∈ rest, (d ++ [(p.1, p.2)]).lookup q.1 = none := by
      intro q hq
      rw [List.lookup_append, hfresh q (by simp [hq]), Option.none_or]
      rw [lookup_none_iff]
      intro x hx
      rw [List.mem_singleton] at hx
      rw [hx]
      exact fun h => (hne q hq) h.symm
    rw [ih (d ++ [(p.1, p.2)]) hnd' hfresh']
    simp

theorem foldl_eq_self_of_mem {β α : Type} (g : α → β → α) (l : List β) (d : α)
    (h : ∀ x ∈ l, g d x = d) : l.foldl g d = d := by
  induction l with
  | nil => rfl
  | cons x xs ih =>
    simp only [List.foldl_cons, h x (by simp)]
    exact ih (fun y hy => h y (by simp [hy]))

/-! ### Swap and bias-correction lemmas -/

theorem listSwap_cons_succ {α : Type} (h : α) (t : List α) (k : Nat)
    (hk : k < t.length) :
    listSwap (h :: t) 0 (k + 1) = t.get ⟨k, hk⟩ :: t.set k h := by
  simp [listSwap, List.getElem?_eq_getElem (by simpa using Nat.succ_lt_succ hk)]

theorem listSwap_cons_succ_perm {α : Type} (h : α) (t : List α) (k : Nat)
    (hk : k < t.length) : (listSwap (h :: t) 0 (k + 1)).Perm (h :: t) := by
  rw [listSwap_cons_succ h t k hk]
  have hset : t.set k h = t.take k ++ h :: t.drop (k + 1) := by
    rw [List.set_eq_take_append_cons_drop]
    simp [hk]
  have ht : t = t.take k ++ t.get ⟨k, hk⟩ :: t.drop (k + 1) := by
    conv_lhs => rw [← List.take_append_drop k t]
    rw [List.drop_eq_getElem_cons hk]
    simp
  rw [hset]
  have p1 : (t.take k ++ h :: t.drop (k + 1)).Perm (h :: (t.take k ++ t.drop (k + 1))) :=
    List.perm_middle
  refine ((p1.cons _).trans (List.Perm.swap h _ _)).trans ?_
  refine List.Perm.cons h ?_
  conv_rhs => rw [ht]
  exact List.perm_middle.symm

theorem appliedSeq_perm (shuffled seq : List String) (r : Nat)
    (hsome : appliedSeq shuffled r = some seq) : seq.Perm shuffled := by
  match shuffled with
  | [] =>
    simp [appliedSeq] at hsome
    simp [← hsome]
  | h :: t =>
    by_cases hSH : h = "Security Hall"
    · rw [appliedSeq, if_pos hSH] at hsome
      rw [randint] at hsome
      by_cases hlen : (h :: t).length - 1 < 1
      · rw [if_pos hlen] at hsome
        exact absurd hsome (by simp)
      · rw [if_neg hlen] at hsome
        simp only [Option.some.injEq] at hsome
        have hlt : 1 ≤ (h :: t).length - 1 := Nat.le_of_not_lt hlen
        have htlen : (h :: t).length - 1 = t.length := by simp
        rw [htlen] at hsome hlt
        have hmod : r % t.length < t.length := Nat.mod_lt r hlt
        rw [Nat.sub_add_cancel hlt] at hsome
        rw [← hsome, Nat.add_comm 1 (r % t.length)]
        exact listSwap_cons_succ_perm h t (r % t.length) hmod
    · rw [appliedSeq, if_neg hSH] at hsome
      simp only [Option.some.injEq] at hsome
      rw [← hsome]

theorem appliedSeq_head_ne (shuffled seq : List String) (r : Nat)
    (hnd : shuffled.Nodup) (hsome : appliedSeq shuffled r = some seq) :
    seq.head? ≠ some "Security Hall" := by
  match shuffled with
  | [] =>
    simp [appliedSeq] at hsome
    rw [hsome]
    simp
  | h :: t =>
    by_cases hSH : h = "Security Hall"
    · rw [appliedSeq, if_pos hSH] at hsome
      rw [randint] at hsome
      by_cases hlen : (h :: t).length - 1 < 1
      · rw [if_pos hlen] at hsome
        exact absurd hsome (by simp)
      · rw [if_neg hlen] at hsome
        simp only [Option.some.injEq] at hsome
        have hlt : 1 ≤ (h :: t).length - 1 := Nat.le_of_not_lt hlen
        have htlen : (h :: t).length - 1 = t.length := by simp
        rw [htlen] at hsome hlt
        rw [Nat.sub_add_cancel hlt] at hsome
        have hmod : r % t.length < t.length := Nat.mod_lt r hlt
        rw [Nat.add_comm 1 (r % t.length)] at hsome
        rw [← hsome, listSwap_cons_succ h t (r % t.length) hmod]
        simp only [List.head?_cons, ne_eq, Option.some.injEq]
        intro hEq
        have hmem : t.get ⟨r % t.length, hmod⟩ ∈ t := List.get_mem t _ hmod
        rw [List.nodup_cons] at hnd
        rw [hEq, ← hSH] at hmem
        exact hnd.1 hmem
    · rw [appliedSeq, if_neg hSH] at hsome
      simp only [Option.some.injEq] at hsome
      rw [← hsome]
      simp [hSH]

/-! ### Remaining-stage count lemmas -/

theorem mem_remainingStages (banned : List String) (s : String) :
    s ∈ remainingStages banned ↔ s ∈ STAGE_NAMES ∧ s ∉ banned := by
  simp [remainingStages]

theorem remainingStages_nodup (banned : List String) :
    (remainingStages banned).Nodup :=
  stage_names_nodup.filter _

theorem remainingStages_length (banned : List String) (hnd : banned.Nodup)
    (hsub : ∀ s ∈ banned, s ∈ STAGE_NAMES) :
    (remainingStages banned).length = 9 - banned.length := by
  have hperm := List.filter_append_perm (fun s => !(banned.contains s)) STAGE_NAMES
  have hlen := hperm.length_eq
  rw [List.length_append, stage_names_length] at hlen
  have hfc : (STAGE_NAMES.filter (fun x => !(!(banned.contains x)))).Perm banned := by
    rw [List.perm_ext_iff_of_nodup (stage_names_nodup.filter _) hnd]
    intro a
    simp only [List.mem_filter, Bool.not_not]
    constructor
    · intro ⟨_, hc⟩
      simpa using hc
    · intro ha
      exact ⟨hsub a ha, by simpa using ha⟩
  rw [hfc.length_eq] at hlen
  unfold remainingStages
  omega

/-! ### Closed form of the ordering generator -/

theorem snd_mem_of_mem_enum {α : Type} {l : List α} {p : Nat × α}
    (h : p ∈ l.enum) : p.2 ∈ l := by
  obtain ⟨i, x⟩ := p
  obtain ⟨hlt, hx⟩ := List.mem_enum h
  rw [hx]
  exact List.getElem_mem hlt

theorem nodup_map_abbrOf {l : List String} (hnd : l.Nodup)
    (hsub : ∀ s ∈ l, s ∈ STAGE_NAMES) : (l.map abbrOf).Nodup :=
  List.Nodup.map_on (fun x hx y hy h => abbrOf_injOn x (hsub x hx) y (hsub y hy) h) hnd


theorem contains_of_mem {l : List String} {s : String} (h : s ∈ l) :
    l.contains s = true :=
  List.elem_eq_true_of_mem h

theorem orderedStagesFor_closed (banned seq : List String)
    (hbnd : banned.Nodup) (hbsub : ∀ s ∈ banned, s ∈ STAGE_NAMES)
    (hsnd : seq.Nodup) (hssub : ∀ s ∈ seq, s ∈ STAGE_NAMES)
    (hdisj : ∀ s ∈ seq, s ∉ banned)
    (hcover : ∀ s ∈ STAGE_NAMES, s ∈ banned ∨ s ∈ seq) :
    orderedStagesFor banned seq = orderedForm banned seq := by
  have hd0 :
      banned.foldl (fun d s =>
        if STAGE_NAMES.contains s then dictInsert d (abbrOf s) 0 else d)
        ([] : List (String × Nat)) =
      banned.map (fun s => (abbrOf s, 0)) := by
    rw [List.foldl_ext (fun d s =>
        if STAGE_NAMES.contains s then dictInsert d (abbrOf s) 0 else d)
      (fun d s => dictInsert d (abbrOf s) 0) []
      (fun d s hs => by simp [hbsub s hs])]
    rw [← List.foldl_map (fun s => ((abbrOf s, 0) : String × Nat))
      (fun d p => dictInsert d p.1 p.2) banned []]
    rw [foldl_dictInsert_eq_append _ []
      (by rw [List.map_map]
          exact nodup_map_abbrOf hbnd hbsub)
      (fun p _ => rfl)]
    simp
  have hd1 :
      seq.enum.foldl (fun d p =>
        if STAGE_NAMES.contains p.2 then dictInsert d (abbrOf p.2) (p.1 + 1) else d)
        (banned.map (fun s => (abbrOf s, 0))) =
      banned.map (fun s => (abbrOf s, 0)) ++
        seq.enum.map (fun p => (abbrOf p.2, p.1 + 1)) := by
    rw [List.foldl_ext (fun d (p : Nat × String) =>
        if STAGE_NAMES.contains p.2 then dictInsert d (abbrOf p.2) (p.1 + 1) else d)
      (fun d (p : Nat × String) => dictInsert d (abbrOf p.2) (p.1 + 1)) _
      (fun d p hp => by simp [hssub p.2 (snd_mem_of_mem_enum hp)])]
    rw [← List.foldl_map (fun (p : Nat × String) => ((abbrOf p.2, p.1 + 1) : String × Nat))
      (fun d p => dictInsert d p.1 p.2) seq.enum _]
    rw [foldl_dictInsert_eq_append _ _
      (by rw [List.map_map]
          rw [show (Prod.fst ∘ fun (p : Nat × String) =>
              ((abbrOf p.2, p.1 + 1) : String × Nat)) = (abbrOf ∘ Prod.snd) from rfl]
          rw [← List.map_map abbrOf Prod.snd, List.enum_map_snd]
          exact nodup_map_abbrOf hsnd hssub)
      (by
        intro p hp
        rw [lookup_none_iff]
        intro q hq
        obtain ⟨b, hb, hqb⟩ := List.mem_map.mp hq
        obtain ⟨e, he, hpe⟩ := List.mem_map.mp hp
        rw [← hqb, ← hpe]
        simp only [ne_eq]
        intro habs
        have hsEq : b = e.2 :=
          abbrOf_injOn b (hbsub b hb) e.2 (hssub e.2 (snd_mem_of_mem_enum he)) habs
        exact hdisj e.2 (snd_mem_of_mem_enum he) (hsEq ▸ hb))]
  have hfill :
      STAGE_NAMES.foldl (fun d s =>
        if ((d.lookup (abbrOf s)).isSome : Bool) then d else d ++ [(abbrOf s, 0)])
        (banned.map (fun s => (abbrOf s, 0)) ++
          seq.enum.map (fun p => (abbrOf p.2, p.1 + 1))) =
      banned.map (fun s => (abbrOf s, 0)) ++
        seq.enum.map (fun p => (abbrOf p.2, p.1 + 1)) := by
    apply foldl_eq_self_of_mem
    intro s hs
    have hsome : (((banned.map (fun s => ((abbrOf s, 0) : String × Nat)) ++
        seq.enum.map (fun (p : Nat × String) => ((abbrOf p.2, p.1 + 1) : String × Nat)))).lookup
          (abbrOf s)).isSome = true := by
      rw [lookup_isSome_iff]
      rcases hcover s hs with hb | hq
      · exact ⟨(abbrOf s, 0), List.mem_append_left _ (List.mem_map_of_mem _ hb), rfl⟩
      · have hmem : s ∈ seq.enum.map Prod.snd := by
          rw [List.enum_map_snd]
          exact hq
        obtain ⟨p, hp, hps⟩ := List.mem_map.mp hmem
        exact ⟨(abbrOf p.2, p.1 + 1),
          List.mem_append_right _ (List.mem_map_of_mem _ hp), by rw [hps]⟩
    simp [hsome]
  simp only [orderedStagesFor]
  rw [hd0, hd1, hfill]
  rw [List.map_append, List.map_map, List.map_map]
  unfold orderedForm
  refine congrArg₂ (· ++ ·) (List.map_congr_left ?_) (List.map_congr_left ?_)
  · intro b hb
    simp only [Function.comp_apply]
    rw [abbr_to_stage_abbrOf b (hbsub b hb)]
  · intro p hp
    simp only [Function.comp_apply]
    rw [abbr_to_stage_abbrOf p.2 (hssub p.2 (snd_mem_of_mem_enum hp))]

/-! ### Active-sequence closed forms -/

theorem enum_pairwise_fst_lt {α : Type} (l : List α) :
    l.enum.Pairwise (fun p q => p.1 < q.1) := by
  have h := List.pairwise_lt_range l.length
  rw [← List.enum_map_fst l] at h
  exact List.pairwise_map.mp h

theorem activeStages_orderedForm (banned seq : List String) :
    activeStages (orderedForm banned seq) =
      seq.enum.map (fun p => (p.2, p.1 + 1)) := by
  unfold activeStages orderedForm
  rw [List.filter_append]
  have h1 : (banned.map (fun b => (b, 0, abbrOf b))).filter
      (fun t => decide (0 < t.2.1)) = [] := by
    rw [List.filter_eq_nil_iff]
    intro a ha
    obtain ⟨b, hb, hba⟩ := List.mem_map.mp ha
    rw [← hba]
    simp
  have h2 : (seq.enum.map (fun p => (p.2, p.1 + 1, abbrOf p.2))).filter
      (fun t => decide (0 < t.2.1)) =
      seq.enum.map (fun p => (p.2, p.1 + 1, abbrOf p.2)) := by
    rw [List.filter_eq_self]
    intro a ha
    obtain ⟨p, hp, hpa⟩ := List.mem_map.mp ha
    rw [← hpa]
    simp
  rw [h1, h2, List.nil_append, List.map_map]
  have hcomp : ((fun (t : String × Nat × String) => (t.1, t.2.1)) ∘
      (fun (p : Nat × String) => (p.2, p.1 + 1, abbrOf p.2))) =
      (fun (p : Nat × String) => (p.2, p.1 + 1)) := rfl
  rw [hcomp]
  apply List.mergeSort_of_sorted
  rw [List.pairwise_map]
  exact (enum_pairwise_fst_lt seq).imp
    (fun h => decide_eq_true (Nat.succ_le_succ (Nat.le_of_lt h)))

theorem stageOrderOf_orderedForm (banned seq : List String) :
    stageOrderOf (orderedForm banned seq) = seq := by
  unfold stageOrderOf
  rw [activeStages_orderedForm, List.map_map]
  have h : (Prod.fst ∘ fun (p : Nat × String) => (p.2, p.1 + 1)) =
      (Prod.snd : Nat × String → String) := rfl
  rw [h, List.enum_map_snd]

theorem activeStages_orderedForm_ranks (banned seq : List String) :
    (activeStages (orderedForm banned seq)).map (fun p => p.2) =
      List.range' 1 seq.length := by
  rw [activeStages_orderedForm, List.map_map]
  have h : ((fun (p : String × Nat) => p.2) ∘
      fun (p : Nat × String) => (p.2, p.1 + 1)) =
      ((fun i => i + 1) ∘ (Prod.fst : Nat × String → Nat)) := rfl
  rw [h, ← List.map_map, List.enum_map_fst, List.range'_eq_map_range]
  apply List.map_congr_left
  intro a _
  omega

/-! ### Draft-level glue -/

theorem appliedSeq_isSome (shuffled : List String) (r : Nat)
    (h2 : 2 ≤ shuffled.length) : (appliedSeq shuffled r).isSome = true := by
  match shuffled with
  | [] => simp at h2
  | h :: t =>
    by_cases hSH : h = "Security Hall"
    · simp only [appliedSeq, if_pos hSH, randint]
      have hnot : ¬ ((h :: t).length - 1 < 1) := by
        simp only [List.length_cons] at h2 ⊢
        omega
      rw [if_neg hnot]
      simp
    · simp only [appliedSeq, if_neg hSH]
      simp

theorem draft_generation (banned shuffled seq : List String) (r : Nat)
    (hbnd : banned.Nodup) (hbsub : ∀ s ∈ banned, s ∈ STAGE_NAMES)
    (hperm : shuffled.Perm (remainingStages banned))
    (hseq : appliedSeq shuffled r = some seq) :
    seq.Perm (remainingStages banned) ∧
      generateOrderedStages banned shuffled r = some (orderedForm banned seq) := by
  have hsp : seq.Perm (remainingStages banned) :=
    (appliedSeq_perm _ _ _ hseq).trans hperm
  have hsnd : seq.Nodup := hsp.nodup_iff.mpr (remainingStages_nodup banned)
  have hssub : ∀ s ∈ seq, s ∈ STAGE_NAMES := fun s hs =>
    ((mem_remainingStages banned s).mp (hsp.mem_iff.mp hs)).1
  have hdisj : ∀ s ∈ seq, s ∉ banned := fun s hs =>
    ((mem_remainingStages banned s).mp (hsp.mem_iff.mp hs)).2
  have hcover : ∀ s ∈ STAGE_NAMES, s ∈ banned ∨ s ∈ seq := by
    intro s hs
    by_cases hb : s ∈ banned
    · exact Or.inl hb
    · exact Or.inr (hsp.mem_iff.mpr ((mem_remainingStages banned s).mpr ⟨hs, hb⟩))
  refine ⟨hsp, ?_⟩
  simp only [generateOrderedStages, hseq]
  rw [orderedStagesFor_closed banned seq hbnd hbsub hsnd hssub hdisj hcover]

theorem appliedSeq_of_head_SH (shuffled : List String) (r : Nat)
    (hh : shuffled.head? = some "Security Hall") (h2 : 2 ≤ shuffled.length) :
    appliedSeq shuffled r =
      some (listSwap shuffled 0 (1 + r % (shuffled.length - 1))) := by
  match shuffled with
  | [] => simp at hh
  | h :: t =>
    have hSH : h = "Security Hall" := by simpa using hh
    simp only [appliedSeq, if_pos hSH, randint]
    have hnot : ¬ ((h :: t).length - 1 < 1) := by
      simp only [List.length_cons] at h2 ⊢
      omega
    rw [if_neg hnot]
    have harith : (h :: t).length - 1 - 1 + 1 = (h :: t).length - 1 := by
      simp only [List.length_cons] at h2 ⊢
      omega
    rw [harith]

theorem appliedSeq_of_head_ne (shuffled : List String) (r : Nat)
    (hh : shuffled.head? ≠ some "Security Hall") :
    appliedSeq shuffled r = some shuffled := by
  match shuffled with
  | [] => rfl
  | h :: t =>
    have hne : h ≠ "Security Hall" := by simpa using hh
    simp [appliedSeq, hne]

/-! ### Split-segment closed form -/

theorem segStep_eq (total : Nat) (sl segs : List String) (n : Nat)
    (stage : String) :
    segStep total (sl, segs, n) stage =
      (sl ++ (List.range' 1 5).map (fun i => stage ++ " " ++ toString i),
       segs ++ (List.range' 1 5).map (fun i => stage ++ " " ++ toString i ++
         " (" ++ toString (n + i - 1) ++ "/" ++ toString total ++ ")"),
       n + 5) := by
  simp [segStep, List.range', List.append_assoc]

theorem createSegments_loop (total : Nat) (stages : List String) :
    ∀ (sl segs : List String) (n : Nat),
      stages.foldl (segStep total) (sl, segs, n) =
        (sl ++ stages.flatMap (fun s =>
          (List.range' 1 5).map (fun i => s ++ " " ++ toString i)),
         segs ++ expectedSegs total stages n,
         n + 5 * stages.length) := by
  induction stages with
  | nil =>
    intro sl segs n
    simp [expectedSegs]
  | cons s rest ih =>
    intro sl segs n
    rw [List.foldl_cons, segStep_eq, ih]
    simp only [expectedSegs, List.flatMap_cons, List.append_assoc,
      List.length_cons, Prod.mk.injEq]
    refine ⟨trivial, trivial, by omega⟩

theorem expectedSegs_length (total : Nat) (stages : List String) :
    ∀ n, (expectedSegs total stages n).length = 5 * stages.length := by
  induction stages with
  | nil => intro n; simp [expectedSegs]
  | cons s rest ih =>
    intro n
    simp only [expectedSegs, List.length_append, List.length_map,
      List.length_range', List.length_cons, ih]
    omega

theorem expectedSegs_eq_enumFrom (total : Nat) (stages : List String) :
    ∀ j0, expectedSegs total stages (5 * j0 + 1) =
      (stages.enumFrom j0).flatMap (fun p =>
        (List.range' 1 5).map (fun i => p.2 ++ " " ++ toString i ++ " (" ++
          toString (5 * p.1 + i) ++ "/" ++ toString total ++ ")")) := by
  induction stages with
  | nil => intro j0; simp [expectedSegs]
  | cons s rest ih =>
    intro j0
    simp only [expectedSegs, List.enumFrom, List.flatMap_cons]
    refine congrArg₂ (· ++ ·) ?_ ?_
    · apply List.map_congr_left
      intro i hi
      have hi1 : 1 ≤ i := by
        have := List.mem_range'_1.mp hi
        omega
      rw [show 5 * j0 + 1 + i - 1 = 5 * j0 + i from by omega]
    · rw [show 5 * j0 + 1 + 5 = 5 * (j0 + 1) + 1 from by ring]
      exact ih (j0 + 1)

/-! ### Claim C1: ranks of banned and active stages -/

/-- Claim C1: for every two-element set of banned stages drawn from the
9-stage catalog (and any shuffle outcome and swap draw), the generated
ordering assigns rank 0 to each banned stage, and the active stages, sorted
by rank, have ranks exactly `1..7` (a contiguous permutation, no gaps or
repeats), so the active sequence has length 7. -/
theorem claim1_ordering_ranks (banned shuffled : List String) (r : Nat)
    (os : List (String × Nat × String))
    (hbnd : banned.Nodup) (hbsub : ∀ b ∈ banned, b ∈ STAGE_NAMES)
    (hlen : banned.length = 2)
    (hperm : shuffled.Perm (remainingStages banned))
    (hgen : generateOrderedStages banned shuffled r = some os) :
    (∀ b ∈ banned, (b, 0, abbrOf b) ∈ os) ∧
      (stageOrderOf os).length = 7 ∧
      (activeStages os).map (fun p => p.2) = List.range' 1 7 := by
  obtain ⟨seq, hseq⟩ : ∃ seq, appliedSeq shuffled r = some seq := by
    cases h : appliedSeq shuffled r with
    | none =>
      simp only [generateOrderedStages, h] at hgen
      exact absurd hgen (by simp)
    | some s => exact ⟨s, rfl⟩
  obtain ⟨hsp, hOF⟩ := draft_generation banned shuffled seq r hbnd hbsub hperm hseq
  rw [hOF] at hgen
  have hos : os = orderedForm banned seq := by
    simpa using hgen.symm
  have hseqlen : seq.length = 7 := by
    rw [hsp.length_eq, remainingStages_length banned hbnd hbsub, hlen]
  subst hos
  refine ⟨?_, ?_, ?_⟩
  · intro b hb
    exact List.mem_append_left _
      (List.mem_map_of_mem (fun b => (b, 0, abbrOf b)) hb)
  · rw [stageOrderOf_orderedForm, hseqlen]
  · rw [activeStages_orderedForm_ranks, hseqlen]

/-- Witness for C1 at a concrete draft: ban Wild Canyon and Pumpkin Hill,
shuffle outcome equal to the remaining list, swap draw 0. -/
theorem claim1_witness :
    (("Wild Canyon", 0, abbrOf "Wild Canyon") ∈
      orderedStagesFor ["Wild Canyon", "Pumpkin Hill"]
        (remainingStages ["Wild Canyon", "Pumpkin Hill"])) ∧
    (stageOrderOf (orderedStagesFor ["Wild Canyon", "Pumpkin Hill"]
      (remainingStages ["Wild Canyon", "Pumpkin Hill"]))).length = 7 ∧
    (activeStages (orderedStagesFor ["Wild Canyon", "Pumpkin Hill"]
      (remainingStages ["Wild Canyon", "Pumpkin Hill"]))).map (fun p => p.2) =
      List.range' 1 7 := by
  have h := claim1_ordering_ranks ["Wild Canyon", "Pumpkin Hill"]
    (remainingStages ["Wild Canyon", "Pumpkin Hill"]) 0
    (orderedStagesFor ["Wild Canyon", "Pumpkin Hill"]
      (remainingStages ["Wild Canyon", "Pumpkin Hill"]))
    (by decide) (by decide) (by decide) (List.Perm.refl _) (by rfl)
  exact ⟨h.1 "Wild Canyon" (by decide), h.2.1, h.2.2⟩

/-! ### Claim C2: the no-starting-stage constraint -/

/-- Claim C2: for every generation run with two banned stages from the
catalog, Security Hall never appears at position 0 of the active sequence;
moreover, when the shuffle places it first the active sequence is exactly
the single swap of the shuffle with position `randint(1, len-1)` (modelled
as `1 + r % (len-1)`), and otherwise the active sequence is the shuffle
unchanged (no re-roll). -/
theorem claim2_no_starting_stage (banned shuffled : List String) (r : Nat)
    (os : List (String × Nat × String))
    (hbnd : banned.Nodup) (hbsub : ∀ b ∈ banned, b ∈ STAGE_NAMES)
    (hlen : banned.length = 2)
    (hperm : shuffled.Perm (remainingStages banned))
    (hgen : generateOrderedStages banned shuffled r = some os) :
    (stageOrderOf os).head? ≠ some "Security Hall" ∧
      (shuffled.head? = some "Security Hall" →
        stageOrderOf os = listSwap shuffled 0 (1 + r % (shuffled.length - 1))) ∧
      (shuffled.head? ≠ some "Security Hall" → stageOrderOf os = shuffled) := by
  obtain ⟨seq, hseq⟩ : ∃ seq, appliedSeq shuffled r = some seq := by
    cases h : appliedSeq shuffled r with
    | none =>
      simp only [generateOrderedStages, h] at hgen
      exact absurd hgen (by simp)
    | some s => exact ⟨s, rfl⟩
  obtain ⟨hsp, hOF⟩ := draft_generation banned shuffled seq r hbnd hbsub hperm hseq
  rw [hOF] at hgen
  have hos : os = orderedForm banned seq := by
    simpa using hgen.symm
  subst hos
  rw [stageOrderOf_orderedForm]
  have hshufnd : shuffled.Nodup :=
    hperm.nodup_iff.mpr (remainingStages_nodup banned)
  have h2 : 2 ≤ shuffled.length := by
    rw [hperm.length_eq, remainingStages_length banned hbnd hbsub, hlen]
    omega
  refine ⟨appliedSeq_head_ne shuffled seq r hshufnd hseq, ?_, ?_⟩
  · intro hh
    have := appliedSeq_of_head_SH shuffled r hh h2
    rw [hseq] at this
    simpa using this
  · intro hh
    have := appliedSeq_of_head_ne shuffled r hh
    rw [hseq] at this
    simpa using this

/-- Witness for C2 at a concrete draft in which the shuffle put Security
Hall first: with swap draw 0 it is exchanged with position 1. -/
theorem claim2_witness :
    (stageOrderOf (orderedStagesFor ["Wild Canyon", "Pumpkin Hill"]
      (listSwap ["Security Hall", "Death Chamber", "Aquatic Mine",
        "Meteor Herd", "Dry Lagoon", "Egg Quarters", "Mad Space"] 0 1))).head? ≠
      some "Security Hall" := by
  have h := claim2_no_starting_stage ["Wild Canyon", "Pumpkin Hill"]
    ["Security Hall", "Death Chamber", "Aquatic Mine", "Meteor Herd",
      "Dry Lagoon", "Egg Quarters", "Mad Space"] 0
    (orderedStagesFor ["Wild Canyon", "Pumpkin Hill"]
      (listSwap ["Security Hall", "Death Chamber", "Aquatic Mine",
        "Meteor Herd", "Dry Lagoon", "Egg Quarters", "Mad Space"] 0 1))
    (by decide) (by decide) (by decide) (by decide) (by rfl)
  exact h.1

/-! ### Claim C10: generation never fails on a legal ban list -/

/-- Claim C10: for every banned list of at most two distinct catalog stages,
at least 7 stages remain, the Security Hall swap draws from the non-empty
range `[1, len-1]` (so `len ≥ 2`), and stage-order generation never hits
the failing `randint` branch: it always returns a value. -/
theorem claim10_generation_total (banned shuffled : List String) (r : Nat)
    (hbnd : banned.Nodup) (hbsub : ∀ b ∈ banned, b ∈ STAGE_NAMES)
    (hlen : banned.length ≤ 2)
    (hperm : shuffled.Perm (remainingStages banned)) :
    7 ≤ (remainingStages banned).length ∧ 2 ≤ shuffled.length ∧
      (generateOrderedStages banned shuffled r).isSome = true := by
  have hrem : (remainingStages banned).length = 9 - banned.length :=
    remainingStages_length banned hbnd hbsub
  have h7 : 7 ≤ (remainingStages banned).length := by omega
  have h2 : 2 ≤ shuffled.length := by
    rw [hperm.length_eq]
    omega
  refine ⟨h7, h2, ?_⟩
  obtain ⟨seq, hseq⟩ := Option.isSome_iff_exists.mp (appliedSeq_isSome shuffled r h2)
  simp only [generateOrderedStages, hseq, Option.isSome_some]

/-- Witness for C10: a single banned stage, shuffle outcome equal to the
remaining list. -/
theorem claim10_witness :
    7 ≤ (remainingStages ["Security Hall"]).length ∧
      2 ≤ (remainingStages ["Security Hall"]).length ∧
      (generateOrderedStages ["Security Hall"]
        (remainingStages ["Security Hall"]) 3).isSome = true :=
  claim10_generation_total ["Security Hall"] (remainingStages ["Security Hall"]) 3
    (by decide) (by decide) (by decide) (List.Perm.refl _)

/-! ### Config-file closed form -/

theorem generateConfigFile_closed (banned shuffled seq : List String)
    (rSwap rSeed : Nat)
    (hbnd : banned.Nodup) (hbsub : ∀ s ∈ banned, s ∈ STAGE_NAMES)
    (hperm : shuffled.Perm (remainingStages banned))
    (hseq : appliedSeq shuffled rSwap = some seq) :
    generateConfigFile banned shuffled rSwap rSeed =
      some { set := [("seed", toString (1 + rSeed % MAX_SEED)), ("ups", "True")],
             order := banned.map (fun b => (abbrOf b, "0")) ++
               seq.enum.map (fun p => (abbrOf p.2, toString (p.1 + 1))),
             number := STAGE_NAMES.map (fun s => (abbrOf s, "5")) } := by
  obtain ⟨hsp, hgen⟩ := draft_generation banned shuffled seq rSwap hbnd hbsub hperm hseq
  have hsnd : seq.Nodup := hsp.nodup_iff.mpr (remainingStages_nodup banned)
  have hssub : ∀ s ∈ seq, s ∈ STAGE_NAMES := fun s hs =>
    ((mem_remainingStages banned s).mp (hsp.mem_iff.mp hs)).1
  have hdisj : ∀ s ∈ seq, s ∉ banned := fun s hs =>
    ((mem_remainingStages banned s).mp (hsp.mem_iff.mp hs)).2
  have hcover : ∀ s ∈ STAGE_NAMES, s ∈ banned ∨ s ∈ seq := by
    intro s hs
    by_cases hb : s ∈ banned
    · exact Or.inl hb
    · exact Or.inr (hsp.mem_iff.mpr ((mem_remainingStages banned s).mpr ⟨hs, hb⟩))
  simp only [generateConfigFile, hgen]
  rw [randint, if_neg (by decide : ¬ (MAX_SEED < 1)),
    (by decide : MAX_SEED - 1 + 1 = MAX_SEED)]
  have horder0 :
      (orderedForm banned seq).foldl
        (fun d t => dictInsert d t.2.2 (toString t.2.1)) [] =
      banned.map (fun b => (abbrOf b, "0")) ++
        seq.enum.map (fun p => (abbrOf p.2, toString (p.1 + 1))) := by
    rw [← List.foldl_map
      (fun (t : String × Nat × String) => ((t.2.2, toString t.2.1) : String × String))
      (fun d p => dictInsert d p.1 p.2) (orderedForm banned seq) []]
    rw [foldl_dictInsert_eq_append _ []
      (by
        rw [List.map_map]
        rw [show (Prod.fst ∘ fun (t : String × Nat × String) =>
            ((t.2.2, toString t.2.1) : String × String)) =
            (fun (t : String × Nat × String) => t.2.2) from rfl]
        unfold orderedForm
        rw [List.map_append, List.map_map, List.map_map]
        rw [show ((fun (t : String × Nat × String) => t.2.2) ∘
            fun b => (b, 0, abbrOf b)) = abbrOf from rfl]
        rw [show ((fun (t : String × Nat × String) => t.2.2) ∘
            fun (p : Nat × String) => (p.2, p.1 + 1, abbrOf p.2)) =
            (abbrOf ∘ Prod.snd) from rfl]
        rw [← List.map_map abbrOf Prod.snd, List.enum_map_snd, ← List.map_append]
        exact nodup_map_abbrOf
          (List.Nodup.append hbnd hsnd (fun a ha hb => hdisj a hb ha))
          (fun s hs => by
            rcases List.mem_append.mp hs with h | h
            · exact hbsub s h
            · exact hssub s h))
      (fun p _ => rfl)]
    rw [List.nil_append]
    unfold orderedForm
    rw [List.map_append, List.map_map, List.map_map]
    refine congrArg₂ (· ++ ·) (List.map_congr_left ?_) (List.map_congr_left ?_)
    · intro b _
      simp only [Function.comp_apply]
      rfl
    · intro p _
      simp only [Function.comp_apply]
  rw [horder0]
  have hfill :
      STAGE_NAMES.foldl (fun d s =>
        if ((d.lookup (abbrOf s)).isSome : Bool) then d else d ++ [(abbrOf s, "0")])
        (banned.map (fun b => (abbrOf b, "0")) ++
          seq.enum.map (fun p => (abbrOf p.2, toString (p.1 + 1)))) =
      banned.map (fun b => (abbrOf b, "0")) ++
        seq.enum.map (fun p => (abbrOf p.2, toString (p.1 + 1))) := by
    apply foldl_eq_self_of_mem
    intro s hs
    have hsome : (((banned.map (fun b => ((abbrOf b, "0") : String × String)) ++
        seq.enum.map (fun (p : Nat × String) =>
          ((abbrOf p.2, toString (p.1 + 1)) : String × String)))).lookup
            (abbrOf s)).isSome = true := by
      rw [lookup_isSome_iff]
      rcases hcover s hs with hb | hq
      · exact ⟨(abbrOf s, "0"), List.mem_append_left _ (List.mem_map_of_mem _ hb), rfl⟩
      · have hmem : s ∈ seq.enum.map Prod.snd := by
          rw [List.enum_map_snd]
          exact hq
        obtain ⟨p, hp, hps⟩ := List.mem_map.mp hmem
        exact ⟨(abbrOf p.2, toString (p.1 + 1)),
          List.mem_append_right _ (List.mem_map_of_mem _ hp), by rw [hps]⟩
    simp [hsome]
  rw [hfill]
  have hnumber :
      STAGE_NAMES.foldl (fun d s => dictInsert d (abbrOf s) "5") [] =
      STAGE_NAMES.map (fun s => (abbrOf s, "5")) := by
    rw [← List.foldl_map (fun s => ((abbrOf s, "5") : String × String))
      (fun d p => dictInsert d p.1 p.2) STAGE_NAMES []]
    rw [foldl_dictInsert_eq_append _ []
      (by
        rw [List.map_map]
        exact nodup_map_abbrOf stage_names_nodup (fun s hs => hs))
      (fun p _ => rfl)]
    simp
  rw [hnumber]

/-! ### Claim C9: the seed of the settings section -/

/-- Claim C9: every config-serializer invocation that yields a file writes a
settings section that is exactly a seed entry followed by the fixed boolean
flag `ups=True`, where the seed is an integer `s` with `1 ≤ s ≤ 2^31 - 1`
(`MAX_SEED`). -/
theorem claim9_seed_range (banned shuffled : List String) (rSwap rSeed : Nat)
    (c : ConfigFile)
    (hc : generateConfigFile banned shuffled rSwap rSeed = some c) :
    c.set = [("seed", toString (1 + rSeed % MAX_SEED)), ("ups", "True")] ∧
      1 ≤ 1 + rSeed % MAX_SEED ∧ 1 + rSeed % MAX_SEED ≤ MAX_SEED ∧
      MAX_SEED = 2 ^ 31 - 1 := by
  cases hgen : generateOrderedStages banned shuffled rSwap with
  | none =>
    simp only [generateConfigFile, hgen] at hc
    exact absurd hc (by simp)
  | some os =>
    simp only [generateConfigFile, hgen] at hc
    rw [randint, if_neg (by decide : ¬ (MAX_SEED < 1)),
      (by decide : MAX_SEED - 1 + 1 = MAX_SEED)] at hc
    have he := Option.some.inj hc
    have hmod : rSeed % MAX_SEED < MAX_SEED :=
      Nat.mod_lt rSeed (by decide : 0 < MAX_SEED)
    refine ⟨?_, by omega, by omega, by decide⟩
    rw [← he]

/-- Witness for C9 at a concrete invocation (seed draw 41). -/
theorem claim9_witness :
    ((generateConfigFile ["Wild Canyon", "Pumpkin Hill"]
        (remainingStages ["Wild Canyon", "Pumpkin Hill"]) 0 41).getD
          ⟨[], [], []⟩).set =
        [("seed", toString (1 + 41 % MAX_SEED)), ("ups", "True")] ∧
      1 ≤ 1 + 41 % MAX_SEED ∧ 1 + 41 % MAX_SEED ≤ MAX_SEED ∧
      MAX_SEED = 2 ^ 31 - 1 :=
  claim9_seed_range ["Wild Canyon", "Pumpkin Hill"]
    (remainingStages ["Wild Canyon", "Pumpkin Hill"]) 0 41
    ((generateConfigFile ["Wild Canyon", "Pumpkin Hill"]
      (remainingStages ["Wild Canyon", "Pumpkin Hill"]) 0 41).getD ⟨[], [], []⟩)
    (by rfl)

/-! ### Claim C5: key order of the emitted config sections -/

/-- Counterexample to C5 as stated: with banned stages Mad Space then Wild
Canyon and the shuffle leaving the remaining stages in catalog order, the
emitted order section lists its keys `ms, wc, ph, dc, ...` — banned stages
first in ban order, not catalog declaration order (`wc, ph, ..., ms`). -/
theorem claim5_counterexample :
    (generateConfigFile ["Mad Space", "Wild Canyon"]
        (remainingStages ["Mad Space", "Wild Canyon"]) 0 0).map
          (fun c => c.order.map Prod.fst) ≠
      some (STAGE_NAMES.map abbrOf) := by
  decide

/-- Claim C5 amended: the count (`number`) section lists its keys in catalog
declaration order, but the order section lists its keys in dictionary
insertion order — the banned stages (in ban order) first, then the shuffled
active stages in their shuffled order. -/
theorem claim5_section_key_order (banned shuffled seq : List String)
    (rSwap rSeed : Nat) (c : ConfigFile)
    (hbnd : banned.Nodup) (hbsub : ∀ b ∈ banned, b ∈ STAGE_NAMES)
    (hperm : shuffled.Perm (remainingStages banned))
    (hseq : appliedSeq shuffled rSwap = some seq)
    (hc : generateConfigFile banned shuffled rSwap rSeed = some c) :
    c.number.map Prod.fst = STAGE_NAMES.map abbrOf ∧
      c.order.map Prod.fst = banned.map abbrOf ++ seq.map abbrOf := by
  have h := generateConfigFile_closed banned shuffled seq rSwap rSeed
    hbnd hbsub hperm hseq
  rw [hc] at h
  have he := Option.some.inj h
  rw [he]
  constructor
  · rw [List.map_map]
    rfl
  · rw [List.map_append, List.map_map, List.map_map]
    refine congrArg₂ (· ++ ·) rfl ?_
    rw [show (Prod.fst ∘ fun (p : Nat × String) =>
        ((abbrOf p.2, toString (p.1 + 1)) : String × String)) =
        (abbrOf ∘ Prod.snd) from rfl]
    rw [← List.map_map abbrOf Prod.snd, List.enum_map_snd]

/-- Witness for the amended C5 at a concrete draft. -/
theorem claim5_witness :
    ((generateConfigFile ["Mad Space", "Wild Canyon"]
        (remainingStages ["Mad Space", "Wild Canyon"]) 0 0).getD
          ⟨[], [], []⟩).number.map Prod.fst = STAGE_NAMES.map abbrOf ∧
      ((generateConfigFile ["Mad Space", "Wild Canyon"]
        (remainingStages ["Mad Space", "Wild Canyon"]) 0 0).getD
          ⟨[], [], []⟩).order.map Prod.fst =
        ["Mad Space", "Wild Canyon"].map abbrOf ++
          (remainingStages ["Mad Space", "Wild Canyon"]).map abbrOf :=
  claim5_section_key_order ["Mad Space", "Wild Canyon"]
    (remainingStages ["Mad Space", "Wild Canyon"])
    (remainingStages ["Mad Space", "Wild Canyon"]) 0 0
    ((generateConfigFile ["Mad Space", "Wild Canyon"]
      (remainingStages ["Mad Space", "Wild Canyon"]) 0 0).getD ⟨[], [], []⟩)
    (by decide) (by decide) (List.Perm.refl _) (by rfl) (by rfl)

/-! ### Claim C4: serializer determinism modulo the seed -/

/-- Counterexample to C4's "the order-section rank mapping emitted by the
config serializer does not change between calls given the same concluded
draft": two invocations for the same concluded draft (same two banned
stages, same swap and seed draws, both shuffle outcomes legal permutations
of the remaining stages) emit different order sections, because
`generate_config_file` re-invokes `generate_ordered_stages` and re-shuffles
on every call. -/
theorem claim4_counterexample :
    (["Death Chamber", "Aquatic Mine", "Meteor Herd", "Dry Lagoon",
        "Egg Quarters", "Security Hall", "Mad Space"].Perm
      (remainingStages ["Wild Canyon", "Pumpkin Hill"])) ∧
    (["Mad Space", "Egg Quarters", "Security Hall", "Dry Lagoon",
        "Meteor Herd", "Aquatic Mine", "Death Chamber"].Perm
      (remainingStages ["Wild Canyon", "Pumpkin Hill"])) ∧
    (generateConfigFile ["Wild Canyon", "Pumpkin Hill"]
        ["Death Chamber", "Aquatic Mine", "Meteor Herd", "Dry Lagoon",
         "Egg Quarters", "Security Hall", "Mad Space"] 0 0).map
          (fun c => c.order) ≠
      (generateConfigFile ["Wild Canyon", "Pumpkin Hill"]
        ["Mad Space", "Egg Quarters", "Security Hall", "Dry Lagoon",
         "Meteor Herd", "Aquatic Mine", "Death Chamber"] 0 0).map
          (fun c => c.order) := by
  refine ⟨by decide, by decide, by decide⟩

/-- Claim C4 amended: each serializer is a deterministic function of its
explicit inputs including its random draws; because the config serializer
re-invokes ordering generation per call, its output given the same
concluded draft is only determined once the shuffle and swap draws are
fixed, and with those fixed, two calls differ at most in the seed entry:
the order and number sections coincide and each settings section is exactly
its seed entry plus the fixed `ups=True` flag. -/
theorem claim4_determinism_modulo_seed (banned shuffled : List String)
    (rSwap r1 r2 : Nat) (c1 c2 : ConfigFile)
    (h1 : generateConfigFile banned shuffled rSwap r1 = some c1)
    (h2 : generateConfigFile banned shuffled rSwap r2 = some c2) :
    c1.order = c2.order ∧ c1.number = c2.number ∧
      c1.set = [("seed", toString (1 + r1 % MAX_SEED)), ("ups", "True")] ∧
      c2.set = [("seed", toString (1 + r2 % MAX_SEED)), ("ups", "True")] := by
  cases hgen : generateOrderedStages banned shuffled rSwap with
  | none =>
    simp only [generateConfigFile, hgen] at h1
    exact absurd h1 (by simp)
  | some os =>
    simp only [generateConfigFile, hgen] at h1 h2
    rw [randint, if_neg (by decide : ¬ (MAX_SEED < 1)),
      (by decide : MAX_SEED - 1 + 1 = MAX_SEED)] at h1 h2
    have e1 := Option.some.inj h1
    have e2 := Option.some.inj h2
    rw [← e1, ← e2]
    exact ⟨rfl, rfl, rfl, rfl⟩

/-- Witness for the amended C4 at concrete seed draws 5 and 77. -/
theorem claim4_witness :
    ((generateConfigFile ["Wild Canyon", "Pumpkin Hill"]
        (remainingStages ["Wild Canyon", "Pumpkin Hill"]) 0 5).getD
          ⟨[], [], []⟩).order =
      ((generateConfigFile ["Wild Canyon", "Pumpkin Hill"]
        (remainingStages ["Wild Canyon", "Pumpkin Hill"]) 0 77).getD
          ⟨[], [], []⟩).order ∧
    ((generateConfigFile ["Wild Canyon", "Pumpkin Hill"]
        (remainingStages ["Wild Canyon", "Pumpkin Hill"]) 0 5).getD
          ⟨[], [], []⟩).number =
      ((generateConfigFile ["Wild Canyon", "Pumpkin Hill"]
        (remainingStages ["Wild Canyon", "Pumpkin Hill"]) 0 77).getD
          ⟨[], [], []⟩).number ∧
    ((generateConfigFile ["Wild Canyon", "Pumpkin Hill"]
        (remainingStages ["Wild Canyon", "Pumpkin Hill"]) 0 5).getD
          ⟨[], [], []⟩).set =
      [("seed", toString (1 + 5 % MAX_SEED)), ("ups", "True")] ∧
    ((generateConfigFile ["Wild Canyon", "Pumpkin Hill"]
        (remainingStages ["Wild Canyon", "Pumpkin Hill"]) 0 77).getD
          ⟨[], [], []⟩).set =
      [("seed", toString (1 + 77 % MAX_SEED)), ("ups", "True")] :=
  claim4_determinism_modulo_seed ["Wild Canyon", "Pumpkin Hill"]
    (remainingStages ["Wild Canyon", "Pumpkin Hill"]) 0 5 77
    ((generateConfigFile ["Wild Canyon", "Pumpkin Hill"]
      (remainingStages ["Wild Canyon", "Pumpkin Hill"]) 0 5).getD ⟨[], [], []⟩)
    ((generateConfigFile ["Wild Canyon", "Pumpkin Hill"]
      (remainingStages ["Wild Canyon", "Pumpkin Hill"]) 0 77).getD ⟨[], [], []⟩)
    (by rfl) (by rfl)

/-! ### Claim C3: the split-label list -/

/-- Claim C3: for every active sequence of `N` stages (with the total
`N * 5` that `generate_split_file` passes), the produced segment-name list
has exactly `5 * N` entries, grouped five per stage in active-sequence
order, and the label of split `i` (`1..5`) of the stage at position `k`
is `"<stage> <i> (<5k+i>/<total>)"` — the running index sweeps `1..5N` in
order with no gaps or repeats. -/
theorem claim3_split_labels (stage_order : List String) :
    ((createSegments stage_order (stage_order.length * 5)).2).length =
        5 * stage_order.length ∧
      (createSegments stage_order (stage_order.length * 5)).2 =
        stage_order.enum.flatMap (fun p =>
          (List.range' 1 5).map (fun i => p.2 ++ " " ++ toString i ++ " (" ++
            toString (5 * p.1 + i) ++ "/" ++
            toString (stage_order.length * 5) ++ ")")) := by
  have h := createSegments_loop (stage_order.length * 5) stage_order [] [] 1
  have hseg : (createSegments stage_order (stage_order.length * 5)).2 =
      expectedSegs (stage_order.length * 5) stage_order 1 := by
    simp only [createSegments, h, List.nil_append]
  constructor
  · rw [hseg, expectedSegs_length]
  · rw [hseg]
    have he := expectedSegs_eq_enumFrom (stage_order.length * 5) stage_order 0
    rw [show 5 * 0 + 1 = 1 from rfl] at he
    rw [he]
    rfl

/-! ### Claim C8: the stage-resolution policy -/

theorem find?_ext {α : Type} (p q : α → Bool) (l : List α)
    (h : ∀ a ∈ l, p a = q a) : l.find? p = l.find? q := by
  induction l with
  | nil => rfl
  | cons x xs ih =>
    rw [List.find?_cons, List.find?_cons, h x (by simp)]
    cases hq : q x
    · simp only []
      exact ih (fun a ha => h a (by simp [ha]))
    · simp only []

theorem stages_lookup_self : ∀ p ∈ STAGES, STAGES.lookup p.1 = some p.2 := by
  decide

theorem contains_map_strLower (l : List String) (si : String) :
    (l.map (fun a => strLower a)).contains si =
      l.any (fun a => strLower a == si) := by
  induction l with
  | nil => rfl
  | cons x xs ih =>
    simp only [List.map_cons, List.contains_cons, List.any_cons, ih]
    rw [Bool.beq_comm]

/-- Claim C8: for every input string, stage resolution is exactly the
two-pass policy written in the specification — first an exact
case-insensitive match against a canonical name, then a case-insensitive
match against a registered alias, otherwise not found — with no other
matching, and it depends only on the input text and the fixed catalog. -/
theorem claim8_resolution_policy (input : String) :
    resolveStageName input = resolveSpec input := by
  simp only [resolveStageName, resolveSpec]
  rw [show STAGE_NAMES = STAGES.map Prod.fst from rfl, List.find?_map,
    List.find?_map]
  have e1 : STAGES.find? ((fun n => strLower n == strLower input) ∘ Prod.fst) =
      STAGES.find? (fun p => strLower input == strLower p.1) :=
    find?_ext _ _ STAGES (fun a _ => by
      simp only [Function.comp_apply]
      rw [Bool.beq_comm])
  have e2 : STAGES.find? ((fun n => ((STAGES.lookup n).getD []).any
      (fun a => strLower a == strLower input)) ∘ Prod.fst) =
      STAGES.find? (fun p =>
        (p.2.map (fun a => strLower a)).contains (strLower input)) :=
    find?_ext _ _ STAGES (fun p hp => by
      simp only [Function.comp_apply]
      rw [stages_lookup_self p hp]
      simp only [Option.getD_some]
      rw [contains_map_strLower])
  rw [e1, e2]
  cases hf : STAGES.find? (fun p => strLower input == strLower p.1) with
  | some p => simp
  | none =>
    simp only [Option.map_none]
    cases hg : STAGES.find? (fun p =>
        (p.2.map (fun a => strLower a)).contains (strLower input)) with
    | some p => simp
    | none => simp

/-! ### Claims C6 and C7: the ban-submission state machine -/

theorem processBan1_spec (st : DraftState) (stage : String)
    (ha : st.draft_active = true) (hw : st.waiting_for_ban1 = true) :
    ((processBan1 st stage).1.banned_stages = st.banned_stages ++ [stage] ∧
      ((processBan1 st stage).1.draft_active = false ∨
        ((processBan1 st stage).1.waiting_for_ban1 = false ∧
          (processBan1 st stage).1.waiting_for_ban2 = true ∧
          (processBan1 st stage).1.draft_active = true))) ∨
      (processBan1 st stage).1 = st := by
  unfold processBan1 processBan
  simp only [getWait, ha, hw]
  cases hfb : st.first_banner with
  | none => simp
  | some b =>
    cases hsb : st.second_banner with
    | none => simp [setWait]
    | some nb => simp [setWait]

theorem processBan2_spec (st : DraftState) (stage : String)
    (ha : st.draft_active = true) (hw : st.waiting_for_ban2 = true) :
    ((processBan2 st stage).1.banned_stages = st.banned_stages ++ [stage] ∧
      (processBan2 st stage).1.draft_active = false) ∨
      (processBan2 st stage).1 = st := by
  unfold processBan2 processBan
  simp only [getWait, ha, hw]
  cases hsb : st.second_banner with
  | none => simp
  | some b => simp

theorem consoleSubmit_preserves_inv (st : DraftState) (input : String)
    (h : DraftInv st) : DraftInv (consoleSubmit st input).1 := by
  unfold consoleSubmit
  by_cases ha : st.draft_active = true
  · rw [if_pos ha]
    by_cases hw : st.waiting_for_ban1 = true ∨ st.waiting_for_ban2 = true
    · rw [if_pos hw]
      cases hres : resolveStageName input with
      | none => exact h
      | some stage =>
        simp only []
        by_cases hcont : st.banned_stages.contains stage = true
        · rw [if_pos hcont]
          exact h
        · rw [if_neg hcont]
          have hstage : stage ∉ st.banned_stages := fun hm =>
            hcont (contains_of_mem hm)
          obtain ⟨hnd, hle, hact⟩ := h
          by_cases hw1 : st.waiting_for_ban1 = true
          · rw [if_pos hw1]
            have hlen0 : st.banned_stages.length = 0 := (hact ha).1 hw1
            have hnil : st.banned_stages = [] := List.length_eq_zero.mp hlen0
            rcases processBan1_spec st stage ha hw1 with ⟨hb, hfl⟩ | hid
            · refine ⟨?_, ?_, ?_⟩
              · rw [hb, hnil]
                simp
              · rw [hb, hnil]
                simp
              · intro hact2
                rcases hfl with hoff | ⟨hw1f, hw2t, hacteq⟩
                · rw [hoff] at hact2
                  cases hact2
                · constructor
                  · intro hw1t
                    rw [hw1f] at hw1t
                    cases hw1t
                  · intro _
                    rw [hb, hnil]
                    simp
            · rw [hid]
              exact ⟨hnd, hle, hact⟩
          · rw [if_neg hw1]
            have hw2 : st.waiting_for_ban2 = true := by
              rcases hw with h1 | h2
              · exact absurd h1 hw1
              · exact h2
            have hlen1 : st.banned_stages.length ≤ 1 := (hact ha).2 hw2
            rcases processBan2_spec st stage ha hw2 with ⟨hb, hoff⟩ | hid
            · refine ⟨?_, ?_, ?_⟩
              · rw [hb]
                exact List.Nodup.append hnd (List.nodup_singleton stage)
                  (fun a hain hasin => hstage ((List.mem_singleton.mp hasin) ▸ hain))
              · rw [hb]
                simp only [List.length_append, List.length_singleton]
                omega
              · intro hact2
                rw [hoff] at hact2
                cases hact2
            · rw [hid]
              exact ⟨hnd, hle, hact⟩
    · rw [if_neg hw]
      exact h
  · rw [if_neg ha]
    exact h

theorem consoleSubmit_banned_step (st : DraftState) (input : String) :
    (consoleSubmit st input).1.banned_stages = st.banned_stages ∨
      ∃ s, (consoleSubmit st input).1.banned_stages = st.banned_stages ++ [s] ∧
        s ∉ st.banned_stages := by
  unfold consoleSubmit
  by_cases ha : st.draft_active = true
  · rw [if_pos ha]
    by_cases hw : st.waiting_for_ban1 = true ∨ st.waiting_for_ban2 = true
    · rw [if_pos hw]
      cases hres : resolveStageName input with
      | none => exact Or.inl rfl
      | some stage =>
        simp only []
        by_cases hcont : st.banned_stages.contains stage = true
        · rw [if_pos hcont]
          exact Or.inl rfl
        · rw [if_neg hcont]
          have hstage : stage ∉ st.banned_stages := fun hm =>
            hcont (contains_of_mem hm)
          by_cases hw1 : st.waiting_for_ban1 = true
          · rw [if_pos hw1]
            rcases processBan1_spec st stage ha hw1 with ⟨hb, _⟩ | hid
            · exact Or.inr ⟨stage, hb, hstage⟩
            · exact Or.inl (by rw [hid])
          · rw [if_neg hw1]
            have hw2 : st.waiting_for_ban2 = true := by
              rcases hw with h1 | h2
              · exact absurd h1 hw1
              · exact h2
            rcases processBan2_spec st stage ha hw2 with ⟨hb, _⟩ | hid
            · exact Or.inr ⟨stage, hb, hstage⟩
            · exact Or.inl (by rw [hid])
    · rw [if_neg hw]
      exact Or.inl rfl
  · rw [if_neg ha]
    exact Or.inl rfl

theorem reachable_inv (st : DraftState) (h : ReachableDraft st) : DraftInv st := by
  induction h with
  | start r1 r2 coin =>
    refine ⟨by simp [startState], by simp [startState], ?_⟩
    intro _
    exact ⟨fun _ => by simp [startState], fun _ => by simp [startState]⟩
  | reset _ _ =>
    refine ⟨by simp [resetState], by simp [resetState], ?_⟩
    intro hact
    rw [show resetState.draft_active = false from rfl] at hact
    cases hact
  | ban input _ ih => exact consoleSubmit_preserves_inv _ input ih

/-- Claim C6: in every state reachable through the session's ban-submission
flow, the banned list has at most two entries and no duplicate, and any
single submission records at most one ban, always a stage not already
banned (so the second accepted ban differs from the first). -/
theorem claim6_ban_invariant (st : DraftState) (h : ReachableDraft st) :
    (st.banned_stages.length ≤ 2 ∧ st.banned_stages.Nodup) ∧
      ∀ input, (consoleSubmit st input).1.banned_stages = st.banned_stages ∨
        ∃ s, (consoleSubmit st input).1.banned_stages =
            st.banned_stages ++ [s] ∧ s ∉ st.banned_stages := by
  have hInv := reachable_inv st h
  exact ⟨⟨hInv.2.1, hInv.1⟩, fun input => consoleSubmit_banned_step st input⟩

/-- Witness for C6 at the freshly started draft. -/
theorem claim6_witness :
    (startState "Alice" "Bob" false).banned_stages.length ≤ 2 ∧
      (startState "Alice" "Bob" false).banned_stages.Nodup :=
  (claim6_ban_invariant (startState "Alice" "Bob" false)
    (ReachableDraft.start "Alice" "Bob" false)).1

/-- Claim C7: in any session state with phase Idle or Concluded (the draft
is not active), submitting a ban — through the console flow or directly
through either `_process_ban` wrapper — leaves the entire session state
unchanged and reports `NotAwaitingBan`. -/
theorem claim7_not_awaiting (st : DraftState) (input stage : String)
    (h : isIdle st ∨ isConcluded st) :
    consoleSubmit st input = (st, BanOutcome.notAwaitingBan) ∧
      processBan1 st stage = (st, BanOutcome.notAwaitingBan) ∧
      processBan2 st stage = (st, BanOutcome.notAwaitingBan) := by
  have ha : st.draft_active = false := by
    rcases h with ⟨ha, _⟩ | ⟨ha, _⟩
    · exact ha
    · exact ha
  have hna : ¬ st.draft_active = true := by
    rw [ha]
    exact Bool.false_ne_true
  refine ⟨?_, ?_, ?_⟩
  · unfold consoleSubmit
    rw [if_neg hna]
  · unfold processBan1 processBan
    rw [if_pos (Or.inl hna)]
  · unfold processBan2 processBan
    rw [if_pos (Or.inl hna)]

/-- Witness for C7 at the Idle state produced by `reset`. -/
theorem claim7_witness :
    consoleSubmit resetState "WC" = (resetState, BanOutcome.notAwaitingBan) ∧
      processBan1 resetState "Wild Canyon" =
        (resetState, BanOutcome.notAwaitingBan) ∧
      processBan2 resetState "Wild Canyon" =
        (resetState, BanOutcome.notAwaitingBan) :=
  claim7_not_awaiting resetState "WC" "Wild Canyon" (Or.inl ⟨rfl, rfl⟩)
